import Mathlib

/-!
A shallow embedding of the `v_transactions_net` schema migration of
`zcash_client_sqlite` (file `src/wallet/init/migrations/v_transactions_net.rs`)
and of the two SQL views it installs.  Tables are lists of typed rows; SQL
NULL is `Option.none`; SQL boolean expressions that can be NULL are
`Option Bool`.  The `UNION` operator (which removes duplicate rows) is
modelled with `List.dedup`, `LEFT JOIN` with an explicit null-extension, and
`GROUP BY` by filtering the joined row list on each distinct key.
-/

/-- A row of the `blocks` table (columns used by the migration). -/
structure BlockRow where
  height : Nat
  hash : Nat
  time : Nat
  sapling_tree : String
deriving DecidableEq

/-- A row of the `transactions` table (columns used by the migration). -/
structure TransactionRow where
  id_tx : Nat
  block : Option Nat
  tx_index : Option Nat
  txid : String
  expiry_height : Option Nat
  raw : Option String
  fee : Option Int
deriving DecidableEq

/-- A row of the `received_notes` table (columns used by the migration). -/
structure ReceivedNote where
  tx : Nat
  output_index : Nat
  account : Nat
  value : Int
  is_change : Bool
  memo : Option String
  spent : Option Nat
deriving DecidableEq

/-- A row of the `sent_notes` table (columns used by the migration);
`id_note` is the integer primary key. -/
structure SentNote where
  id_note : Nat
  tx : Nat
  output_pool : Nat
  output_index : Nat
  from_account : Nat
  to_account : Option Nat
  to_address : Option String
  value : Int
  memo : Option String
deriving DecidableEq

/-- A row of the `accounts` table (only present for frame-effect claims). -/
structure AccountRow where
  account : Nat
  ufvk : String
deriving DecidableEq

/-- The wallet store: the base tables together with the names of the
currently defined SQL views. -/
structure Store where
  blocks : List BlockRow
  transactions : List TransactionRow
  accounts : List AccountRow
  received_notes : List ReceivedNote
  sent_notes : List SentNote
  views : List String
deriving DecidableEq

/-- Modelled from the spec (the `pool_code` helper is outside the visible
source): the pool classification code for the Sapling pool, the value the
migration binds to `:output_pool` (the test fixture writes 2 for Sapling). -/
def sapling_pool : Nat := 2

/-- A tuple of the backfill `SELECT ... EXCEPT SELECT ...` statement.  The
`:output_pool` column is the same literal on both sides of the `EXCEPT` and
is therefore omitted.  The second `SELECT` projects `from_account` twice, so
the tuple carries a single account component. -/
structure BackfillTuple where
  tx : Nat
  output_index : Nat
  account : Nat
  value : Int
deriving DecidableEq

/-- The left operand of the `EXCEPT`: the distinct projections of the
change-flagged received notes. -/
def receivedChangeTuples (rns : List ReceivedNote) : List BackfillTuple :=
  ((rns.filter (fun r => r.is_change)).map
    (fun r => ⟨r.tx, r.output_index, r.account, r.value⟩)).dedup

/-- The projection used by the right operand of the `EXCEPT`:
`tx, :output_pool, output_index, from_account, from_account, value`. -/
def sentTupleOf (s : SentNote) : BackfillTuple :=
  ⟨s.tx, s.output_index, s.from_account, s.value⟩

/-- The right operand of the `EXCEPT` as a projection of `sent_notes`. -/
def sentNoteTuples (sns : List SentNote) : List BackfillTuple :=
  sns.map sentTupleOf

/-- The rows selected by the backfill statement: distinct change projections
minus those already present among the `sent_notes` projections. -/
def backfillTuples (st : Store) : List BackfillTuple :=
  (receivedChangeTuples st.received_notes).filter
    (fun t => !(decide (t ∈ sentNoteTuples st.sent_notes)))

/-- The `sent_notes` row inserted for one surviving tuple: columns absent
from the `INSERT` column list (`to_address`, `memo`) default to NULL, and
`to_account` receives the same `account` value as `from_account`. -/
def synthesizedRow (id : Nat) (t : BackfillTuple) : SentNote :=
  ⟨id, t.tx, sapling_pool, t.output_index, t.account, some t.account, none, t.value, none⟩

/-- The next value of the `id_note` integer primary key. -/
def nextSentId (sns : List SentNote) : Nat :=
  (sns.map (fun s => s.id_note)).foldl max 0 + 1

/-- Materialize the inserted rows, assigning consecutive primary keys. -/
def synthRows : Nat → List BackfillTuple → List SentNote
  | _, [] => []
  | n, t :: ts => synthesizedRow n t :: synthRows (n + 1) ts

/-- All rows inserted into `sent_notes` by the backfill statement. -/
def backfillRows (st : Store) : List SentNote :=
  synthRows (nextSentId st.sent_notes) (backfillTuples st)

/-- The effect of the backfill `INSERT` on the store. -/
def applyBackfill (st : Store) : Store :=
  { st with sent_notes := st.sent_notes ++ backfillRows st }

/-- A row of the `v_tx_events` view. -/
structure TxEvent where
  id_tx : Nat
  output_index : Nat
  from_account : Option Nat
  to_account : Option Nat
  to_address : Option String
  value : Int
  is_change : Bool
  memo : Option String
deriving DecidableEq

/-- The received-note-anchored branch of `v_tx_events`:
`received_notes LEFT JOIN sent_notes` on equal `(tx, output_index)`. -/
def receivedAnchored (sns : List SentNote) (r : ReceivedNote) : List TxEvent :=
  match sns.filter (fun s => s.tx == r.tx && s.output_index == r.output_index) with
  | [] => [⟨r.tx, r.output_index, none, some r.account, none, r.value, r.is_change, r.memo⟩]
  | ms => ms.map (fun s =>
      ⟨r.tx, r.output_index, some s.from_account, some r.account, none, r.value, r.is_change, r.memo⟩)

/-- The sent-note-anchored branch of `v_tx_events`:
`sent_notes LEFT JOIN received_notes` on equal `(tx, output_index)`, keeping
only joined rows whose received note is absent or not change. -/
def sentAnchored (rns : List ReceivedNote) (s : SentNote) : List TxEvent :=
  match rns.filter (fun r => r.tx == s.tx && r.output_index == s.output_index) with
  | [] => [⟨s.tx, s.output_index, some s.from_account, none, s.to_address, s.value, false, s.memo⟩]
  | ms => (ms.filter (fun r => !r.is_change)).map (fun r =>
      ⟨s.tx, s.output_index, some s.from_account, some r.account, s.to_address, s.value, false, s.memo⟩)

/-- The `v_tx_events` view: the `UNION` (duplicate-removing) of the two
anchored branches. -/
def v_tx_events (rns : List ReceivedNote) (sns : List SentNote) : List TxEvent :=
  ((rns.flatMap (receivedAnchored sns)) ++ (sns.flatMap (sentAnchored rns))).dedup

/-- A row of the `notes` common table expression of `v_transactions`. -/
structure NotesRow where
  account_id : Nat
  id_tx : Nat
  value : Int
  is_change : Int
  received_count : Int
  memo_present : Int
deriving DecidableEq

/-- The projection of a received note taken by the first branch of the
`notes` CTE. -/
def recRow (r : ReceivedNote) : NotesRow :=
  ⟨r.account, r.tx, r.value,
   if r.is_change then 1 else 0,
   if r.is_change then 0 else 1,
   if r.memo.isSome then 1 else 0⟩

/-- The projection of a spent received note taken by the second branch of
the `notes` CTE (keyed by the spending transaction, value negated). -/
def spendRowOf (r : ReceivedNote) (sp : Nat) : NotesRow :=
  ⟨r.account, sp, -r.value, 0, 0, 0⟩

/-- The `notes` CTE: the `UNION` (duplicate-removing) of the receive branch
and the spend branch. -/
def notesCTE (rns : List ReceivedNote) : List NotesRow :=
  ((rns.map recRow) ++ (rns.filterMap (fun r => r.spent.map (spendRowOf r)))).dedup

/-- A row of the `sent_note_counts` CTE. -/
structure SentCountRow where
  account_id : Nat
  id_tx : Nat
  sent_notes : Int
  memo_count : Int
deriving DecidableEq

/-- The `WHERE` clause of the `sent_note_counts` CTE: keep the sent notes
whose `(tx, output_index)` is not that of any change-flagged received note. -/
def qualifyingSent (rns : List ReceivedNote) (sns : List SentNote) : List SentNote :=
  sns.filter (fun s =>
    !(rns.any (fun r => r.is_change && r.tx == s.tx && r.output_index == s.output_index)))

/-- The `sent_note_counts` CTE: group the qualifying sent notes by
`(from_account, tx)`; count distinct primary keys and non-null memos. -/
def sent_note_counts (rns : List ReceivedNote) (sns : List SentNote) : List SentCountRow :=
  ((qualifyingSent rns sns).map (fun s => (s.from_account, s.tx))).dedup.map (fun k =>
    { account_id := k.1
      id_tx := k.2
      sent_notes :=
        ((((qualifyingSent rns sns).filter
            (fun s => s.from_account == k.1 && s.tx == k.2)).map
              (fun s => s.id_note)).dedup.length : Nat)
      memo_count :=
        (((qualifyingSent rns sns).filter
            (fun s => s.from_account == k.1 && s.tx == k.2)).map
              (fun s => if s.memo.isSome then (1 : Int) else 0)).sum })

/-- The `blocks_max_height` CTE: `MAX(blocks.height)`, NULL on an empty
table. -/
def blocks_max_height (bs : List BlockRow) : Option Nat :=
  bs.foldl (fun acc b =>
    match acc with
    | none => some b.height
    | some m => some (max m b.height)) none

/-- SQL three-valued less-or-equal on nullable integers. -/
def sqlLe (x y : Option Nat) : Option Bool :=
  match x, y with
  | some a, some b => some (decide (a ≤ b))
  | _, _ => none

/-- SQL three-valued conjunction. -/
def sqlAnd (x y : Option Bool) : Option Bool :=
  match x, y with
  | some false, _ => some false
  | _, some false => some false
  | some true, some true => some true
  | _, _ => none

/-- Null-extension of a `LEFT JOIN` match list: no match contributes a
single NULL row, matches contribute themselves. -/
def vJoinLeft {α : Type} (ms : List α) : List (Option α) :=
  match ms with
  | [] => [none]
  | ms => ms.map some

/-- A row of the joined relation underlying the main `v_transactions`
query, before grouping. -/
structure JoinedRow where
  t : TransactionRow
  n : NotesRow
  maxh : Option Nat
  b : Option BlockRow
  sc : Option SentCountRow
deriving DecidableEq

/-- The two left joins of the main `v_transactions` query for one
transaction row and one `notes` row: `LEFT JOIN blocks ON blocks.height =
transactions.block` and `LEFT JOIN sent_note_counts ON matching
(account, tx)`, together with the single `blocks_max_height` row. -/
def noteJoin (st : Store) (t : TransactionRow) (n : NotesRow) : List JoinedRow :=
  (vJoinLeft (st.blocks.filter (fun b => (some b.height : Option Nat) == t.block))).flatMap (fun b =>
    (vJoinLeft ((sent_note_counts st.received_notes st.sent_notes).filter
        (fun sc => sc.account_id == n.account_id && sc.id_tx == n.id_tx))).map (fun sc =>
      ⟨t, n, blocks_max_height st.blocks, b, sc⟩))

/-- The inner join `JOIN notes ON notes.id_tx = transactions.id_tx` for one
transaction row. -/
def innerJoin (st : Store) (t : TransactionRow) : List JoinedRow :=
  ((notesCTE st.received_notes).filter (fun n => n.id_tx == t.id_tx)).flatMap (noteJoin st t)

/-- The join of the main `v_transactions` query:
`transactions JOIN notes ON notes.id_tx = transactions.id_tx
 JOIN blocks_max_height
 LEFT JOIN blocks ON blocks.height = transactions.block
 LEFT JOIN sent_note_counts ON matching (account, tx)`. -/
def joinedRows (st : Store) : List JoinedRow :=
  st.transactions.flatMap (innerJoin st)

/-- A row of the `v_transactions` view. -/
structure VTxRow where
  account_id : Nat
  id_tx : Nat
  mined_height : Option Nat
  tx_index : Option Nat
  txid : String
  expiry_height : Option Nat
  raw : Option String
  net_transfer : Int
  fee_paid : Option Int
  has_change : Bool
  sent_note_count : Int
  received_note_count : Int
  memo_count : Int
  block_time : Option Nat
  expired_unmined : Option Bool
deriving DecidableEq

/-- `COALESCE(sent_note_counts.sent_notes, 0)`. -/
def coalesceSent (sc : Option SentCountRow) : Int :=
  match sc with
  | none => 0
  | some c => c.sent_notes

/-- `COALESCE(sent_note_counts.memo_count, 0)`. -/
def coalesceMemo (sc : Option SentCountRow) : Int :=
  match sc with
  | none => 0
  | some c => c.memo_count

/-- `MAX` aggregate over a group (the groups of `v_transactions` are never
empty, so the default for the empty list is irrelevant). -/
def maxAgg (l : List Int) : Int :=
  match l with
  | [] => 0
  | x :: xs => xs.foldl max x

/-- Build one output row of `v_transactions` from a group: `k` is the
`GROUP BY` key, `j0` a representative joined row (all non-aggregated
selected columns are determined by the key), `g` the whole group. -/
def mkVTxRow (k : Nat × Nat) (j0 : JoinedRow) (g : List JoinedRow) : VTxRow :=
  { account_id := k.1
    id_tx := k.2
    mined_height := j0.t.block
    tx_index := j0.t.tx_index
    txid := j0.t.txid
    expiry_height := j0.t.expiry_height
    raw := j0.t.raw
    net_transfer := (g.map (fun j => j.n.value)).sum
    fee_paid := j0.t.fee
    has_change := decide (0 < (g.map (fun j => j.n.is_change)).sum)
    sent_note_count := maxAgg (g.map (fun j => coalesceSent j.sc))
    received_note_count := (g.map (fun j => j.n.received_count)).sum
    memo_count := (g.map (fun j => j.n.memo_present)).sum + maxAgg (g.map (fun j => coalesceMemo j.sc))
    block_time := j0.b.map (fun b => b.time)
    expired_unmined := sqlAnd (some j0.b.isNone) (sqlLe j0.t.expiry_height j0.maxh) }

/-- The `v_transactions` view: group the joined rows by
`(notes.account_id, transactions.id_tx)` and aggregate. -/
def v_transactions (st : Store) : List VTxRow :=
  ((joinedRows st).map (fun j => (j.n.account_id, j.t.id_tx))).dedup.filterMap (fun k =>
    match (joinedRows st).filter (fun j => j.n.account_id == k.1 && j.t.id_tx == k.2) with
    | [] => none
    | j0 :: g => some (mkVTxRow k j0 (j0 :: g)))

/-- Modelled from the spec: the migration error taxonomy of the wallet
migration framework (`WalletMigrationError` and the engine error kinds are
outside the visible source).  Only the kinds named by the spec are listed. -/
inductive MigrationErrorKind where
  | cycleError
  | unknownDependencyError
  | transformationError
  | notRevertible
  | alreadyAppliedError
deriving DecidableEq

/-- The possible outcomes of a migration procedure over a transaction
handle: normal return, an error result, or a Rust panic (which unwinds
without returning a result). -/
inductive DownOutcome where
  | ok
  | err (k : MigrationErrorKind)
  | panics (msg : String)
deriving DecidableEq

/-- The body of `Migration::down`: it unconditionally panics. -/
def Migration.down : DownOutcome :=
  DownOutcome.panics "Cannot revert this migration."

/-- Errors of the schema statements of `Migration::up`. -/
inductive UpError where
  | missingView (name : String)
  | duplicateView (name : String)
deriving DecidableEq

/-- `DROP VIEW name`: fails when the view is not defined. -/
def dropView (name : String) (vs : List String) : Except UpError (List String) :=
  if name ∈ vs then Except.ok (vs.erase name) else Except.error (UpError.missingView name)

/-- `CREATE VIEW name`: fails when a view of that name is already defined. -/
def createView (name : String) (vs : List String) : Except UpError (List String) :=
  if name ∈ vs then Except.error (UpError.duplicateView name) else Except.ok (vs ++ [name])

/-- The body of `Migration::up`: the backfill `INSERT`, then
`DROP VIEW v_tx_received; DROP VIEW v_tx_sent;`, then
`CREATE VIEW v_tx_events`, then `DROP VIEW v_transactions` and
`CREATE VIEW v_transactions`. -/
def Migration.up (st : Store) : Except UpError Store :=
  match dropView "v_tx_received" (applyBackfill st).views with
  | Except.error e => Except.error e
  | Except.ok vs1 =>
    match dropView "v_tx_sent" vs1 with
    | Except.error e => Except.error e
    | Except.ok vs2 =>
      match createView "v_tx_events" vs2 with
      | Except.error e => Except.error e
      | Except.ok vs3 =>
        match dropView "v_transactions" vs3 with
        | Except.error e => Except.error e
        | Except.ok vs4 =>
          match createView "v_transactions" vs4 with
          | Except.error e => Except.error e
          | Except.ok vs5 => Except.ok { applyBackfill st with views := vs5 }

/-- Stated from the claim wording, for comparison with the view: the number
of distinct sent-note entries from account `a` in transaction `τ`,
excluding every sent note whose `(tx, output_index)` coincides with a
change-flagged received note. -/
def spec_sentNoteCount (st : Store) (a τ : Nat) : Int :=
  ((((st.sent_notes.filter (fun s =>
      !(st.received_notes.any (fun r => r.is_change && r.tx == s.tx && r.output_index == s.output_index))
        && (s.from_account == a && s.tx == τ))).map
        (fun s => s.id_note)).dedup.length : Nat) : Int)

/-- Stated from the claim wording: the number of non-null memos across the
qualifying (non-change-excluded) sent notes of account `a` in transaction
`τ`. -/
def spec_sentMemoCount (st : Store) (a τ : Nat) : Int :=
  ((st.sent_notes.filter (fun s =>
      !(st.received_notes.any (fun r => r.is_change && r.tx == s.tx && r.output_index == s.output_index))
        && (s.from_account == a && s.tx == τ))).map
        (fun s => if s.memo.isSome then (1 : Int) else 0)).sum

/-- The number of distinct `notes`-CTE receive projections of the
non-change received notes of account `a` in transaction `τ` (what the view
actually reports as `received_note_count`): change notes contribute
nothing. -/
def spec_distinctNonChangeReceiveRows (st : Store) (a τ : Nat) : Int :=
  ((((st.received_notes.filter (fun r => (r.account == a && r.tx == τ) && !r.is_change)).map
      recRow).dedup.length : Nat) : Int)

/-- The number of distinct receive projections of the memo-carrying
received notes of account `a` in transaction `τ`, change notes included. -/
def spec_distinctMemoReceiveRows (st : Store) (a τ : Nat) : Int :=
  ((((st.received_notes.filter (fun r => (r.account == a && r.tx == τ) && r.memo.isSome)).map
      recRow).dedup.length : Nat) : Int)

/-- Stated from the claim wording of the memo-count property: non-null
memos across the received notes of the account in the transaction,
excluding change notes, plus non-null memos across the qualifying sent
notes. -/
def spec_memoCountClaim (st : Store) (a τ : Nat) : Int :=
  (((st.received_notes.filter (fun r =>
      (r.account == a && r.tx == τ) && !r.is_change && r.memo.isSome)).length : Nat) : Int)
    + spec_sentMemoCount st a τ

/-- Look up the `v_transactions` row of an `(account, transaction)` pair. -/
def rowFor (st : Store) (a τ : Nat) : Option VTxRow :=
  (v_transactions st).find? (fun row => row.account_id == a && row.id_tx == τ)

/-- The store built by the test fixture of the migration, immediately
before this migration runs: two accounts, three blocks, three transactions,
five received notes and four sent notes (`memo X'61'` is rendered as the
one-character string it denotes). -/
def fixtureStore : Store :=
  { blocks :=
      [⟨0, 0, 0, ""⟩, ⟨1, 1, 1, ""⟩, ⟨2, 2, 2, ""⟩]
    transactions :=
      [⟨0, some 0, none, "tx0", none, none, none⟩,
       ⟨1, some 1, none, "tx1", none, none, none⟩,
       ⟨2, some 2, none, "tx2", none, none, none⟩]
    accounts := [⟨0, "ufvk0"⟩, ⟨1, "ufvk1"⟩]
    received_notes :=
      [⟨0, 0, 0, 2, false, none, some 1⟩,
       ⟨0, 3, 0, 5, false, none, some 1⟩,
       ⟨1, 2, 0, 2, true, none, some 2⟩,
       ⟨2, 0, 0, 1, true, none, none⟩,
       ⟨2, 1, 1, 1, false, none, none⟩]
    sent_notes :=
      [⟨1, 1, 2, 0, 0, none, some "addra", 2, none⟩,
       ⟨2, 1, 2, 1, 0, none, some "addrb", 3, some "a"⟩,
       ⟨3, 2, 2, 0, 0, some 0, none, 1, none⟩,
       ⟨4, 2, 2, 1, 0, some 1, none, 1, none⟩]
    views := ["v_tx_received", "v_tx_sent", "v_transactions"] }

/-- The fixture store after the backfill insert of this migration. -/
def fixtureMigrated : Store := applyBackfill fixtureStore

/-- Counterexample store for the backfill-matching claim: one change
received note at `(tx 0, output 0)` and one existing sent note at the same
`(tx 0, output 0)` but with a different value. -/
def c1store : Store :=
  { blocks := []
    transactions := [⟨0, none, none, "tx0", none, none, none⟩]
    accounts := [⟨0, "ufvk0"⟩]
    received_notes := [⟨0, 0, 0, 5, true, none, none⟩]
    sent_notes := [⟨1, 0, 2, 0, 0, none, some "addr", 3, none⟩]
    views := [] }

/-- Counterexample store for the memo-count claim: a single change received
note carrying a memo. -/
def c5store : Store :=
  { blocks := [⟨0, 0, 0, ""⟩]
    transactions := [⟨0, some 0, none, "tx0", none, none, none⟩]
    accounts := [⟨0, "ufvk0"⟩]
    received_notes := [⟨0, 0, 0, 2, true, some "m", none⟩]
    sent_notes := []
    views := [] }

/-- Counterexample store for the expired-unmined claim: an unmined
transaction with an expiry height while the `blocks` table is empty. -/
def c6store : Store :=
  { blocks := []
    transactions := [⟨0, none, none, "tx0", some 1, none, none⟩]
    accounts := [⟨0, "ufvk0"⟩]
    received_notes := [⟨0, 0, 0, 2, false, none, none⟩]
    sent_notes := []
    views := [] }

/-- Counterexample store for the row-existence claim: account 0 appears in
transaction 0 only through a sent note (no received note at all). -/
def c8store : Store :=
  { blocks := [⟨0, 0, 0, ""⟩]
    transactions := [⟨0, some 0, none, "tx0", none, none, none⟩]
    accounts := [⟨0, "ufvk0"⟩]
    received_notes := []
    sent_notes := [⟨1, 0, 2, 0, 0, none, some "addr", 3, none⟩]
    views := [] }

/-- Witness store for the frame-effect claim: empty tables with the three
pre-migration views defined. -/
def c10store : Store :=
  { blocks := []
    transactions := []
    accounts := []
    received_notes := []
    sent_notes := []
    views := ["v_tx_received", "v_tx_sent", "v_transactions"] }

section Helpers

variable {α : Type} {κ : Type} [DecidableEq α] [DecidableEq κ]

/-- Filtering commutes with duplicate removal. -/
theorem filter_dedup_comm (p : α → Bool) (l : List α) :
    l.dedup.filter p = (l.filter p).dedup := by
  induction l with
  | nil => rfl
  | cons a l ih =>
    by_cases ha : a ∈ l
    · rw [List.dedup_cons_of_mem ha]
      by_cases hp : p a
      · have : a ∈ l.filter p := List.mem_filter.mpr ⟨ha, hp⟩
        rw [List.filter_cons_of_pos hp, List.dedup_cons_of_mem this, ih]
      · rw [List.filter_cons_of_neg hp, ih]
    · rw [List.dedup_cons_of_not_mem ha]
      by_cases hp : p a
      · have : a ∉ l.filter p := fun h => ha (List.mem_filter.mp h).1
        rw [List.filter_cons_of_pos hp, List.filter_cons_of_pos hp,
          List.dedup_cons_of_not_mem this, ih]
      · rw [List.filter_cons_of_neg hp, List.filter_cons_of_neg hp, ih]

/-- A list of values that are each zero or one sums to the number of ones. -/
theorem sum_eq_countP_of_zero_one {β : Type} (f : β → Int) (l : List β)
    (h : ∀ x ∈ l, f x = 0 ∨ f x = 1) :
    (l.map f).sum = ((l.countP (fun x => f x == 1) : Nat) : Int) := by
  induction l with
  | nil => rfl
  | cons a l ih =>
    have ha := h a (List.mem_cons_self a l)
    have ih := ih (fun x hx => h x (List.mem_cons_of_mem a hx))
    rcases ha with ha | ha <;>
      simp [List.countP_cons, ha, ih, Int.add_comm]

/-- A duplicate-free list whose members are exactly one element is that
singleton. -/
theorem eq_singleton_of_nodup_mem {l : List α} {x : α} (hn : l.Nodup)
    (hm : ∀ y, y ∈ l ↔ y = x) : l = [x] := by
  cases l with
  | nil => exact absurd ((hm x).mpr rfl) (by simp)
  | cons a l =>
    have hax : a = x := (hm a).mp (List.mem_cons_self a l)
    subst hax
    cases l with
    | nil => rfl
    | cons b l =>
      have hbx : b = a := (hm b).mp (by simp)
      subst hbx
      exact absurd (List.nodup_cons.mp hn).1 (by simp)

/-- Under a duplicate-free key projection, a flat map all of whose other
key classes are empty collapses to the class of the given element. -/
theorem flatMap_eq_of_key {β : Type} (f : α → κ) {l : List α}
    (hnd : (l.map f).Nodup) {x : α} (hx : x ∈ l) (G : α → List β)
    (hother : ∀ y ∈ l, f y ≠ f x → G y = []) : l.flatMap G = G x := by
  induction l with
  | nil => cases hx
  | cons a l ih =>
    rw [List.map_cons, List.nodup_cons] at hnd
    rcases List.mem_cons.mp hx with hax | hxl
    · subst hax
      have hnil : l.flatMap G = [] := List.flatMap_eq_nil_iff.mpr (fun y hy =>
        hother y (List.mem_cons_of_mem x hy) (fun hf =>
          hnd.1 (hf ▸ List.mem_map_of_mem f hy)))
      rw [List.flatMap_cons, hnil, List.append_nil]
    · have hfa : f a ≠ f x := fun hf =>
        hnd.1 (hf ▸ List.mem_map_of_mem f hxl)
      rw [List.flatMap_cons, hother a (List.mem_cons_self a l) hfa, List.nil_append]
      exact ih hnd.2 hxl (fun y hy hne => hother y (List.mem_cons_of_mem a hy) hne)

/-- Under a duplicate-free key projection, a filter that holds exactly on
the key class of a member keeps exactly that member. -/
theorem filter_eq_singleton_of_key (f : α → κ) {l : List α}
    (hnd : (l.map f).Nodup) {x : α} (hx : x ∈ l) (p : α → Bool)
    (hp : ∀ y ∈ l, (p y = true ↔ f y = f x)) : l.filter p = [x] := by
  have hlnd : l.Nodup := hnd.of_map f
  refine eq_singleton_of_nodup_mem (hlnd.filter _) (fun y => ?_)
  simp only [List.mem_filter]
  constructor
  · rintro ⟨hy, hf⟩
    exact List.inj_on_of_nodup_map hnd hy hx ((hp y hy).mp hf)
  · rintro rfl
    exact ⟨hx, (hp _ hx).mpr rfl⟩

/-- A filter with at most one possible key value on a duplicate-free keyed
list keeps at most one element. -/
theorem filter_length_le_one (f : α → κ) {l : List α}
    (hnd : (l.map f).Nodup) (p : α → Bool) (c : κ)
    (hp : ∀ y ∈ l, p y = true → f y = c) : (l.filter p).length ≤ 1 := by
  induction l with
  | nil => simp
  | cons a l ih =>
    rw [List.map_cons, List.nodup_cons] at hnd
    by_cases hpa : p a
    · have hfa : f a = c := hp a (List.mem_cons_self a l) hpa
      have hnil : l.filter p = [] := List.filter_eq_nil_iff.mpr (fun y hy hpy => by
        have : f y = c := hp y (List.mem_cons_of_mem a hy) hpy
        exact hnd.1 ((hfa.trans this.symm) ▸ List.mem_map_of_mem f hy))
      rw [List.filter_cons_of_pos hpa, hnil]
      simp
    · rw [List.filter_cons_of_neg hpa]
      exact ih hnd.2 (fun y hy hpy => hp y (List.mem_cons_of_mem a hy) hpy)

/-- A match list of at most one element null-extends to the singleton of
its optional head. -/
theorem vJoinLeft_eq_head? {l : List α} (h : l.length ≤ 1) :
    vJoinLeft l = [l.head?] := by
  match l with
  | [] => rfl
  | [a] => rfl
  | a :: b :: l => simp at h

/-- A fold of `max` over copies of the start value returns it. -/
theorem foldl_max_const {l : List Int} {c : Int} (h : ∀ x ∈ l, x = c) :
    l.foldl max c = c := by
  induction l with
  | nil => rfl
  | cons a l ih =>
    have ha : a = c := h a (List.mem_cons_self a l)
    subst ha
    rw [List.foldl_cons, max_self]
    exact ih (fun x hx => h x (List.mem_cons_of_mem a hx))

/-- `synthRows` projects back to the tuples it was built from. -/
theorem synthRows_map_tuple (n : Nat) (ts : List BackfillTuple) :
    (synthRows n ts).map sentTupleOf = ts := by
  induction ts generalizing n with
  | nil => rfl
  | cons t ts ih => simp [synthRows, sentTupleOf, synthesizedRow, ih]

/-- Every synthesized row arises from one of the tuples. -/
theorem mem_synthRows {row : SentNote} {n : Nat} {ts : List BackfillTuple}
    (h : row ∈ synthRows n ts) : ∃ m t, t ∈ ts ∧ row = synthesizedRow m t := by
  induction ts generalizing n with
  | nil => cases h
  | cons t ts ih =>
    rcases List.mem_cons.mp h with h | h
    · exact ⟨n, t, List.mem_cons_self t ts, h⟩
    · obtain ⟨m, u, hu, hrow⟩ := ih h
      exact ⟨m, u, List.mem_cons_of_mem t hu, hrow⟩

end Helpers

/-- C1 counterexample: in `c1store` a change received note at
`(tx 0, output 0)` coexists with a sent note at the same
`(tx 0, output 0)` (of a different value), yet the backfill still
synthesizes a row, contradicting the claim that no row is synthesized for a
change note that already has a matching sent note on the same
`(transaction, output-index)`. -/
theorem c1_counterexample :
    (∃ r ∈ c1store.received_notes, r.is_change = true ∧ r.tx = 0 ∧ r.output_index = 0)
    ∧ (∃ s ∈ c1store.sent_notes, s.tx = 0 ∧ s.output_index = 0)
    ∧ (backfillRows c1store).length = 1 := by
  decide

/-- C1 (amended): the backfill synthesizes one row per distinct change
projection `(tx, output_index, account, value)` that coincides with the
projection `(tx, output_index, from_account, value)` of no existing sent
note; each synthesized row keeps the transaction, output index and value,
goes from the owning account to itself, and has no memo, no address and the
Sapling pool code. -/
theorem c1_backfill_characterization (st : Store) :
    ((backfillRows st).map sentTupleOf = backfillTuples st)
    ∧ (∀ t : BackfillTuple,
        t ∈ backfillTuples st ↔
          ((∃ r ∈ st.received_notes, r.is_change = true ∧ r.tx = t.tx
              ∧ r.output_index = t.output_index ∧ r.account = t.account ∧ r.value = t.value)
           ∧ ∀ s ∈ st.sent_notes, ¬(s.tx = t.tx ∧ s.output_index = t.output_index
              ∧ s.from_account = t.account ∧ s.value = t.value)))
    ∧ (∀ row ∈ backfillRows st,
        row.to_account = some row.from_account ∧ row.memo = none
          ∧ row.to_address = none ∧ row.output_pool = sapling_pool) := by
  refine ⟨synthRows_map_tuple _ _, fun t => ?_, fun row hrow => ?_⟩
  · rw [backfillTuples, List.mem_filter]
    simp only [Bool.not_eq_eq_eq_not, Bool.not_true, decide_eq_false_iff_not]
    rw [receivedChangeTuples, List.mem_dedup]
    constructor
    · rintro ⟨hmem, hnot⟩
      obtain ⟨r, hr, hproj⟩ := List.mem_map.mp hmem
      have hr2 := List.mem_filter.mp hr
      subst hproj
      refine ⟨⟨r, hr2.1, hr2.2, rfl, rfl, rfl, rfl⟩, ?_⟩
      rintro s hs ⟨h1, h2, h3, h4⟩
      exact hnot (List.mem_map.mpr ⟨s, hs, by simp [sentTupleOf, h1, h2, h3, h4]⟩)
    · rintro ⟨⟨r, hr, hch, h1, h2, h3, h4⟩, hno⟩
      refine ⟨List.mem_map.mpr ⟨r, List.mem_filter.mpr ⟨hr, hch⟩, by cases t; simp_all⟩, ?_⟩
      intro hmem
      obtain ⟨s, hs, hst⟩ := List.mem_map.mp hmem
      exact hno s hs (by cases t; cases s; simp_all [sentTupleOf])
  · obtain ⟨m, u, _, rfl⟩ := mem_synthRows hrow
    exact ⟨rfl, rfl, rfl, rfl⟩

/-- C2: the backfill insert is idempotent; a second run inserts nothing,
leaving the `sent_notes` table unchanged. -/
theorem c2_backfill_idempotent (st : Store) :
    (applyBackfill (applyBackfill st)).sent_notes = (applyBackfill st).sent_notes := by
  have hnil : backfillTuples (applyBackfill st) = [] := by
    apply List.filter_eq_nil_iff.mpr
    intro t ht
    simp only [Bool.not_eq_eq_eq_not, Bool.not_true, decide_eq_false_iff_not, Decidable.not_not]
    have hrec : receivedChangeTuples (applyBackfill st).received_notes
        = receivedChangeTuples st.received_notes := rfl
    rw [hrec] at ht
    show t ∈ sentNoteTuples (st.sent_notes ++ backfillRows st)
    rw [sentNoteTuples, List.map_append]
    by_cases hmem : t ∈ sentNoteTuples st.sent_notes
    · exact List.mem_append_left _ hmem
    · apply List.mem_append_right
      have hmap : (backfillRows st).map sentTupleOf = backfillTuples st :=
        synthRows_map_tuple _ _
      show t ∈ (backfillRows st).map sentTupleOf
      rw [hmap]
      exact List.mem_filter.mpr ⟨ht, by simpa using hmem⟩
  show (applyBackfill st).sent_notes ++ backfillRows (applyBackfill st)
      = (applyBackfill st).sent_notes
  rw [backfillRows, hnil]
  simp [synthRows]

/-- C9: `Migration::down` panics unconditionally instead of returning a
`NotRevertible`-kind error result. -/
theorem c9_down_panics :
    Migration.down = DownOutcome.panics "Cannot revert this migration."
    ∧ ∀ k : MigrationErrorKind, Migration.down ≠ DownOutcome.err k := by
  exact ⟨rfl, fun k h => by simp [Migration.down] at h⟩

/-- C7: the literal three-transaction scenario.  Running the migration on
the fixture store succeeds, and the post-migration `v_transactions` rows
carry exactly the claimed net transfers, change flags and counts for
`(account 0, tx 0)`, `(account 0, tx 1)`, `(account 0, tx 2)` and
`(account 1, tx 2)`. -/
theorem c7_literal_scenario :
    Migration.up fixtureStore
      = Except.ok { fixtureMigrated with views := ["v_tx_events", "v_transactions"] }
    ∧ (v_transactions fixtureMigrated).length = 4
    ∧ ((rowFor fixtureMigrated 0 0).map (fun r => (r.net_transfer, r.has_change)))
        = some (7, false)
    ∧ ((rowFor fixtureMigrated 0 1).map (fun r => (r.net_transfer, r.has_change, r.memo_count)))
        = some (-5, true, 1)
    ∧ ((rowFor fixtureMigrated 0 2).map (fun r =>
          (r.net_transfer, r.has_change, r.sent_note_count, r.received_note_count)))
        = some (-1, true, 1, 0)
    ∧ ((rowFor fixtureMigrated 1 2).map (fun r =>
          (r.net_transfer, r.has_change, r.received_note_count)))
        = some (1, false, 1) := by
  exact ⟨rfl, rfl, rfl, rfl, rfl, rfl⟩

/-- C5 counterexample: in `c5store` the single received note is change and
carries a memo; the view reports `memo_count = 1` for `(account 0, tx 0)`,
while the claimed count (which excludes change notes) is 0. -/
theorem c5_counterexample :
    ((rowFor c5store 0 0).map (fun r => r.memo_count)) = some 1
    ∧ spec_memoCountClaim c5store 0 0 = 0 := by
  exact ⟨rfl, rfl⟩

/-- C6 counterexample: in `c6store` the blocks table is empty and the only
transaction is unmined with an expiry height; the view reports a NULL
`expired_unmined`, not the claimed false. -/
theorem c6_counterexample :
    ((rowFor c6store 0 0).map (fun r => r.expired_unmined)) = some none
    ∧ (none : Option Bool) ≠ some false := by
  exact ⟨rfl, by simp⟩

/-- C8 counterexample: in `c8store` account 0 is involved in transaction 0
only through a sent note, and the view contains no row at all. -/
theorem c8_counterexample :
    (∃ s ∈ c8store.sent_notes, s.from_account = 0 ∧ s.tx = 0)
    ∧ v_transactions c8store = [] := by
  exact ⟨⟨⟨1, 0, 2, 0, 0, none, some "addr", 3, none⟩, by decide, rfl, rfl⟩, rfl⟩

/-- Every event of the received-note-anchored branch carries the pair and
change flag of its received note. -/
theorem receivedAnchored_fields {sns : List SentNote} {r : ReceivedNote} {e : TxEvent}
    (he : e ∈ receivedAnchored sns r) :
    e.id_tx = r.tx ∧ e.output_index = r.output_index ∧ e.is_change = r.is_change := by
  rw [receivedAnchored] at he
  split at he
  · simp only [List.mem_singleton] at he
    subst he
    exact ⟨rfl, rfl, rfl⟩
  · obtain ⟨s, _, rfl⟩ := List.mem_map.mp he
    exact ⟨rfl, rfl, rfl⟩

/-- Every event of the sent-note-anchored branch carries the pair of its
sent note and a false change flag. -/
theorem sentAnchored_fields {rns : List ReceivedNote} {s : SentNote} {e : TxEvent}
    (he : e ∈ sentAnchored rns s) :
    e.id_tx = s.tx ∧ e.output_index = s.output_index ∧ e.is_change = false := by
  rw [sentAnchored] at he
  split at he
  · simp only [List.mem_singleton] at he
    subst he
    exact ⟨rfl, rfl, rfl⟩
  · obtain ⟨r, _, rfl⟩ := List.mem_map.mp he
    exact ⟨rfl, rfl, rfl⟩

/-- C3: under the data-model invariant that `(tx, output_index)` identifies
at most one received note and at most one sent note, a pair touched by a
sent note and a change received note yields exactly one `v_tx_events` row
(the received-note-anchored one, marked as change), and a sent note with no
change received note on its pair yields at least one event, every event on
its pair having a false change flag. -/
theorem c3_events (st : Store)
    (h1 : (st.received_notes.map (fun r => (r.tx, r.output_index))).Nodup)
    (h2 : (st.sent_notes.map (fun s => (s.tx, s.output_index))).Nodup) :
    (∀ r ∈ st.received_notes, r.is_change = true →
      ∀ s ∈ st.sent_notes, s.tx = r.tx → s.output_index = r.output_index →
        (v_tx_events st.received_notes st.sent_notes).filter
            (fun e => e.id_tx == r.tx && e.output_index == r.output_index)
          = [⟨r.tx, r.output_index, some s.from_account, some r.account, none, r.value, true, r.memo⟩])
    ∧ (∀ s ∈ st.sent_notes,
        (∀ r ∈ st.received_notes, r.tx = s.tx → r.output_index = s.output_index →
          r.is_change = false) →
        ((∃ e ∈ v_tx_events st.received_notes st.sent_notes,
            e.id_tx = s.tx ∧ e.output_index = s.output_index
              ∧ e.from_account = some s.from_account ∧ e.is_change = false)
         ∧ ∀ e ∈ v_tx_events st.received_notes st.sent_notes,
            e.id_tx = s.tx → e.output_index = s.output_index → e.is_change = false)) := by
  constructor
  · intro r hr hchange s hs hstx hsoi
    have hpe : ∀ e : TxEvent,
        ((fun e => e.id_tx == r.tx && e.output_index == r.output_index) e = true)
          ↔ (e.id_tx = r.tx ∧ e.output_index = r.output_index) := by
      intro e
      simp
    have hmatch : st.sent_notes.filter
        (fun s1 => s1.tx == r.tx && s1.output_index == r.output_index) = [s] := by
      refine filter_eq_singleton_of_key (fun x => (x.tx, x.output_index)) h2 hs _ ?_
      intro y hy
      simp [hstx, hsoi, Prod.ext_iff, and_comm]
    have hbranch1 : receivedAnchored st.sent_notes r
        = [⟨r.tx, r.output_index, some s.from_account, some r.account, none, r.value,
            r.is_change, r.memo⟩] := by
      rw [receivedAnchored, hmatch]
      simp
    rw [v_tx_events, filter_dedup_comm, List.filter_append]
    have hB1 : (st.received_notes.flatMap (receivedAnchored st.sent_notes)).filter
        (fun e => e.id_tx == r.tx && e.output_index == r.output_index)
        = [⟨r.tx, r.output_index, some s.from_account, some r.account, none, r.value,
            r.is_change, r.memo⟩] := by
      rw [List.filter_flatMap]
      rw [flatMap_eq_of_key (fun x => (x.tx, x.output_index)) h1 hr]
      · rw [hbranch1]
        simp
      · intro y hy hne
        apply List.filter_eq_nil_iff.mpr
        intro e hee hpee
        obtain ⟨he1, he2, _⟩ := receivedAnchored_fields hee
        rcases (hpe e).mp hpee with ⟨hp1, hp2⟩
        exact hne (by rw [Prod.ext_iff]
                      exact ⟨he1 ▸ hp1, he2 ▸ hp2⟩)
    have hB2 : (st.sent_notes.flatMap (sentAnchored st.received_notes)).filter
        (fun e => e.id_tx == r.tx && e.output_index == r.output_index) = [] := by
      rw [List.filter_flatMap]
      apply List.flatMap_eq_nil_iff.mpr
      intro y hy
      by_cases hpair : (y.tx, y.output_index) = (r.tx, r.output_index)
      · have hys : y = s := by
          apply List.inj_on_of_nodup_map h2 hy hs
          rw [Prod.ext_iff] at hpair ⊢
          exact ⟨hpair.1.trans hstx.symm, hpair.2.trans hsoi.symm⟩
        subst hys
        have hrmatch : st.received_notes.filter
            (fun r1 => r1.tx == y.tx && r1.output_index == y.output_index) = [r] := by
          refine filter_eq_singleton_of_key (fun x => (x.tx, x.output_index)) h1 hr _ ?_
          intro z hz
          simp [hstx, hsoi, Prod.ext_iff]
        rw [sentAnchored, hrmatch]
        simp [hchange]
      · apply List.filter_eq_nil_iff.mpr
        intro e hee hpee
        obtain ⟨he1, he2, _⟩ := sentAnchored_fields hee
        rcases (hpe e).mp hpee with ⟨hp1, hp2⟩
        exact hpair (by rw [Prod.ext_iff]
                        exact ⟨he1 ▸ hp1, he2 ▸ hp2⟩)
    rw [hB1, hB2, List.append_nil, hchange]
    rfl
  · intro s hs hnochange
    constructor
    · rcases hms : st.received_notes.filter
          (fun r1 => r1.tx == s.tx && r1.output_index == s.output_index) with _ | ⟨r0, ms⟩
      · refine ⟨⟨s.tx, s.output_index, some s.from_account, none, s.to_address, s.value,
            false, s.memo⟩, ?_, rfl, rfl, rfl, rfl⟩
        rw [v_tx_events, List.mem_dedup]
        apply List.mem_append_right
        apply List.mem_flatMap.mpr
        refine ⟨s, hs, ?_⟩
        rw [sentAnchored, hms]
        simp
      · have hr0 := List.mem_filter.mp (hms ▸ List.mem_cons_self r0 ms)
        have hr0f : r0.tx = s.tx ∧ r0.output_index = s.output_index := by
          have := hr0.2
          simp at this
          exact this
        have hr0nc : r0.is_change = false :=
          hnochange r0 hr0.1 hr0f.1 hr0f.2
        refine ⟨⟨s.tx, s.output_index, some s.from_account, some r0.account, s.to_address,
            s.value, false, s.memo⟩, ?_, rfl, rfl, rfl, rfl⟩
        rw [v_tx_events, List.mem_dedup]
        apply List.mem_append_right
        apply List.mem_flatMap.mpr
        refine ⟨s, hs, ?_⟩
        rw [sentAnchored, hms]
        apply List.mem_map.mpr
        refine ⟨r0, ?_, rfl⟩
        apply List.mem_filter.mpr
        exact ⟨List.mem_cons_self r0 ms, by simp [hr0nc]⟩
    · intro e he hetx heoi
      rw [v_tx_events, List.mem_dedup] at he
      rcases List.mem_append.mp he with he | he
      · obtain ⟨r1, hr1, her⟩ := List.mem_flatMap.mp he
        obtain ⟨hf1, hf2, hf3⟩ := receivedAnchored_fields her
        have : r1.is_change = false :=
          hnochange r1 hr1 (hf1 ▸ hetx) (hf2 ▸ heoi)
        exact hf3.trans this
      · obtain ⟨s1, hs1, hes⟩ := List.mem_flatMap.mp he
        exact (sentAnchored_fields hes).2.2

/-- C3 witness: the migrated fixture satisfies both uniqueness invariants,
and applying the theorem at the change pair `(tx 1, output 2)` yields the
single received-note-anchored event. -/
theorem c3_events_witness :
    ((fixtureMigrated.received_notes.map (fun r => (r.tx, r.output_index))).Nodup)
    ∧ ((fixtureMigrated.sent_notes.map (fun s => (s.tx, s.output_index))).Nodup)
    ∧ (v_tx_events fixtureMigrated.received_notes fixtureMigrated.sent_notes).filter
          (fun e => e.id_tx == 1 && e.output_index == 2)
        = [⟨1, 2, some 0, some 0, none, 2, true, none⟩] := by
  refine ⟨by decide, by decide, ?_⟩
  exact (c3_events fixtureMigrated (by decide) (by decide)).1
    ⟨1, 2, 0, 2, true, none, some 2⟩ (by decide) rfl
    ⟨5, 1, 2, 2, 0, some 0, none, 2, none⟩ (by decide) rfl rfl

/-- Flat maps agree when the functions agree on members. -/
theorem flatMap_congr_mem {α β : Type} {l : List α} {f g : α → List β}
    (h : ∀ x ∈ l, f x = g x) : l.flatMap f = l.flatMap g := by
  induction l with
  | nil => rfl
  | cons a l ih =>
    rw [List.flatMap_cons, List.flatMap_cons, h a (List.mem_cons_self a l),
      ih (fun x hx => h x (List.mem_cons_of_mem a hx))]

/-- A flat map of singletons is a map. -/
theorem flatMap_map_singleton {α β : Type} (l : List α) (g : α → β) :
    l.flatMap (fun x => [g x]) = l.map g := by
  induction l with
  | nil => rfl
  | cons a l ih => rw [List.flatMap_cons, List.map_cons, ih]; rfl

/-- A flat map guarded by a boolean is a flat map over the filtered list. -/
theorem flatMap_guard {α β : Type} (l : List α) (q : α → Bool) (F : α → List β) :
    l.flatMap (fun x => if q x then F x else []) = (l.filter q).flatMap F := by
  induction l with
  | nil => rfl
  | cons a l ih =>
    by_cases hq : q a
    · rw [List.flatMap_cons, List.filter_cons_of_pos hq, List.flatMap_cons, if_pos hq, ih]
    · rw [List.flatMap_cons, List.filter_cons_of_neg hq, if_neg hq, List.nil_append, ih]

/-- `maxAgg` of a nonempty constant list is the constant. -/
theorem maxAgg_const {l : List Int} {c : Int} (hne : l ≠ [])
    (h : ∀ x ∈ l, x = c) : maxAgg l = c := by
  match l, hne with
  | x :: xs, _ =>
    have hx : x = c := h x (List.mem_cons_self x xs)
    subst hx
    exact foldl_max_const (fun y hy => h y (List.mem_cons_of_mem x hy))

/-- The null-extension of a match list always has a member. -/
theorem vJoinLeft_exists_mem {α : Type} (l : List α) : ∃ x, x ∈ vJoinLeft l := by
  match l with
  | [] => exact ⟨none, by simp [vJoinLeft]⟩
  | a :: t => exact ⟨some a, by simp [vJoinLeft]⟩

/-- Membership in the `notes` CTE: a row is the receive projection or a
spend projection of some received note. -/
theorem mem_notesCTE {rns : List ReceivedNote} {n : NotesRow} :
    n ∈ notesCTE rns ↔
      (∃ r ∈ rns, n = recRow r)
      ∨ (∃ r ∈ rns, ∃ sp, r.spent = some sp ∧ n = spendRowOf r sp) := by
  rw [notesCTE, List.mem_dedup, List.mem_append]
  constructor
  · rintro (h | h)
    · obtain ⟨r, hr, rfl⟩ := List.mem_map.mp h
      exact Or.inl ⟨r, hr, rfl⟩
    · obtain ⟨r, hr, hsp⟩ := List.mem_filterMap.mp h
      rcases hspent : r.spent with _ | sp
      · rw [hspent] at hsp; cases hsp
      · rw [hspent] at hsp
        simp only [Option.map_some'] at hsp
        cases hsp
        exact Or.inr ⟨r, hr, sp, hspent, rfl⟩
  · rintro (⟨r, hr, rfl⟩ | ⟨r, hr, sp, hsp, rfl⟩)
    · exact Or.inl (List.mem_map.mpr ⟨r, hr, rfl⟩)
    · exact Or.inr (List.mem_filterMap.mpr ⟨r, hr, by rw [hsp]; rfl⟩)

/-- Every row of the raw (pre-dedup) `notes` relation has 0/1 counters. -/
theorem notesRaw_counters {rns : List ReceivedNote} {n : NotesRow}
    (h : n ∈ (rns.map recRow) ++ (rns.filterMap (fun r => r.spent.map (spendRowOf r)))) :
    (n.received_count = 0 ∨ n.received_count = 1)
    ∧ (n.memo_present = 0 ∨ n.memo_present = 1) := by
  have h2 : n ∈ notesCTE rns := List.mem_dedup.mpr h
  rcases mem_notesCTE.mp h2 with ⟨r, _, rfl⟩ | ⟨r, _, sp, _, rfl⟩
  · constructor
    · by_cases hc : r.is_change <;> simp [recRow, hc]
    · by_cases hm : r.memo.isSome <;> simp [recRow, hm]
  · exact ⟨Or.inl rfl, Or.inl rfl⟩

/-- The key projection of every `sent_note_counts` row recovers its
grouping key. -/
theorem sent_note_counts_map_key (rns : List ReceivedNote) (sns : List SentNote) :
    (sent_note_counts rns sns).map (fun sc => (sc.account_id, sc.id_tx))
      = ((qualifyingSent rns sns).map (fun s => (s.from_account, s.tx))).dedup := by
  rw [sent_note_counts, List.map_map]
  exact List.map_id _

/-- The key projection of the `sent_note_counts` CTE is duplicate-free. -/
theorem sent_note_counts_key_nodup (rns : List ReceivedNote) (sns : List SentNote) :
    ((sent_note_counts rns sns).map (fun sc => (sc.account_id, sc.id_tx))).Nodup := by
  rw [sent_note_counts_map_key]
  exact List.nodup_dedup _

/-- The key of every `sent_note_counts` row is a deduplicated qualifying
key. -/
theorem mem_sent_note_counts_key {rns : List ReceivedNote} {sns : List SentNote}
    {sc : SentCountRow} (h : sc ∈ sent_note_counts rns sns) :
    (sc.account_id, sc.id_tx)
      ∈ ((qualifyingSent rns sns).map (fun s => (s.from_account, s.tx))).dedup := by
  rw [sent_note_counts] at h
  obtain ⟨k, hk, rfl⟩ := List.mem_map.mp h
  exact hk

/-- Membership in the joined relation of the main `v_transactions` query. -/
theorem mem_joinedRows {st : Store} {j : JoinedRow} :
    j ∈ joinedRows st ↔
      j.t ∈ st.transactions
      ∧ j.n ∈ notesCTE st.received_notes
      ∧ j.n.id_tx = j.t.id_tx
      ∧ j.maxh = blocks_max_height st.blocks
      ∧ j.b ∈ vJoinLeft (st.blocks.filter (fun b => (some b.height : Option Nat) == j.t.block))
      ∧ j.sc ∈ vJoinLeft ((sent_note_counts st.received_notes st.sent_notes).filter
          (fun sc => sc.account_id == j.n.account_id && sc.id_tx == j.n.id_tx)) := by
  constructor
  · intro hj
    simp only [joinedRows, innerJoin, noteJoin, List.mem_flatMap, List.mem_filter,
      List.mem_map] at hj
    obtain ⟨t, ht, n, ⟨hn, hnid⟩, b, hb, sc, hsc, rfl⟩ := hj
    exact ⟨ht, hn, by simpa using hnid, rfl, hb, hsc⟩
  · rintro ⟨ht, hn, hid, hmh, hb, hsc⟩
    simp only [joinedRows, innerJoin, noteJoin, List.mem_flatMap, List.mem_filter,
      List.mem_map]
    refine ⟨j.t, ht, j.n, ⟨hn, by simpa using hid⟩, j.b, hb, j.sc, hsc, ?_⟩
    cases j with
    | mk t n mh b sc =>
      simp only at hmh
      rw [hmh]

/-- Every row of `noteJoin st t n` carries `t` and `n`. -/
theorem mem_noteJoin_shape {st : Store} {t : TransactionRow} {n : NotesRow} {j : JoinedRow}
    (hj : j ∈ noteJoin st t n) : j.t = t ∧ j.n = n := by
  simp only [noteJoin, List.mem_flatMap, List.mem_map] at hj
  obtain ⟨b, hb, sc, hsc, rfl⟩ := hj
  exact ⟨rfl, rfl⟩

/-- Every row of `innerJoin st t` carries `t`. -/
theorem mem_innerJoin_t {st : Store} {t : TransactionRow} {j : JoinedRow}
    (hj : j ∈ innerJoin st t) : j.t = t := by
  simp only [innerJoin, List.mem_flatMap, List.mem_filter] at hj
  obtain ⟨n, hn, hj⟩ := hj
  exact (mem_noteJoin_shape hj).1

/-- With duplicate-free block heights, both left joins match at most one
row, so `noteJoin` is the singleton of the head-of-match row. -/
theorem noteJoin_eq_singleton (st : Store)
    (hblk : (st.blocks.map (fun b => b.height)).Nodup)
    (t : TransactionRow) (n : NotesRow) :
    noteJoin st t n
      = [⟨t, n, blocks_max_height st.blocks,
          (st.blocks.filter (fun b => (some b.height : Option Nat) == t.block)).head?,
          ((sent_note_counts st.received_notes st.sent_notes).filter
            (fun sc => sc.account_id == n.account_id && sc.id_tx == n.id_tx)).head?⟩] := by
  rw [noteJoin]
  have hb1 : (st.blocks.filter (fun b => (some b.height : Option Nat) == t.block)).length ≤ 1 := by
    rcases hblock : t.block with _ | hgt
    · have hnil : st.blocks.filter (fun b => (some b.height : Option Nat) == none) = [] := by
        apply List.filter_eq_nil_iff.mpr
        intro b hb
        simp
      rw [hnil]
      simp
    · apply filter_length_le_one (fun b => b.height) hblk _ hgt
      intro b hb hpb
      simpa using hpb
  have hs1 : ((sent_note_counts st.received_notes st.sent_notes).filter
      (fun sc => sc.account_id == n.account_id && sc.id_tx == n.id_tx)).length ≤ 1 := by
    apply filter_length_le_one (fun sc => (sc.account_id, sc.id_tx))
      (sent_note_counts_key_nodup _ _) _ (n.account_id, n.id_tx)
    intro sc hsc hpsc
    simp at hpsc
    simp [hpsc.1, hpsc.2]
  rw [vJoinLeft_eq_head? hb1, vJoinLeft_eq_head? hs1, List.flatMap_singleton]
  rfl

/-- The `GROUP BY` group of key `(a, t.id_tx)`: with duplicate-free
transaction ids and block heights, the filtered joined relation is exactly
the key's `notes` rows, each completed with the fixed transaction, max
height, block match and sent-count match. -/
theorem group_filter_eq (st : Store) (a : Nat)
    (htx : (st.transactions.map (fun t1 => t1.id_tx)).Nodup)
    (hblk : (st.blocks.map (fun b => b.height)).Nodup)
    {t : TransactionRow} (ht : t ∈ st.transactions) :
    (joinedRows st).filter (fun j => j.n.account_id == a && j.t.id_tx == t.id_tx)
      = ((notesCTE st.received_notes).filter
          (fun n => n.account_id == a && n.id_tx == t.id_tx)).map (fun n =>
        ⟨t, n, blocks_max_height st.blocks,
         (st.blocks.filter (fun b => (some b.height : Option Nat) == t.block)).head?,
         ((sent_note_counts st.received_notes st.sent_notes).filter
            (fun sc => sc.account_id == a && sc.id_tx == t.id_tx)).head?⟩) := by
  have hother : ∀ y ∈ st.transactions, y.id_tx ≠ t.id_tx →
      (innerJoin st y).filter (fun j => j.n.account_id == a && j.t.id_tx == t.id_tx) = [] := by
    intro y hy hne
    apply List.filter_eq_nil_iff.mpr
    intro j hj hpj
    rw [mem_innerJoin_t hj] at hpj
    simp at hpj
    exact hne hpj.2
  have hmain := flatMap_eq_of_key (fun t1 : TransactionRow => t1.id_tx) htx ht
      (fun y => (innerJoin st y).filter (fun j => j.n.account_id == a && j.t.id_tx == t.id_tx))
      hother
  rw [joinedRows, List.filter_flatMap, hmain]
  simp only [innerJoin]
  rw [List.filter_flatMap]
  have hstep : ∀ n ∈ (notesCTE st.received_notes).filter (fun n => n.id_tx == t.id_tx),
      (noteJoin st t n).filter (fun j => j.n.account_id == a && j.t.id_tx == t.id_tx)
        = if n.account_id == a then noteJoin st t n else [] := by
    intro n hn
    by_cases hacct : n.account_id == a
    · rw [if_pos hacct]
      apply List.filter_eq_self.mpr
      intro j hj
      obtain ⟨hjt, hjn⟩ := mem_noteJoin_shape hj
      rw [hjt, hjn]
      simp at hacct
      simp [hacct]
    · rw [if_neg hacct]
      apply List.filter_eq_nil_iff.mpr
      intro j hj hpj
      obtain ⟨hjt, hjn⟩ := mem_noteJoin_shape hj
      rw [hjt, hjn] at hpj
      simp at hpj hacct
      exact hacct hpj
  rw [flatMap_congr_mem hstep, flatMap_guard, List.filter_filter]
  have hnote : ∀ n ∈ (notesCTE st.received_notes).filter
      (fun n => n.account_id == a && n.id_tx == t.id_tx),
      noteJoin st t n
        = [(⟨t, n, blocks_max_height st.blocks,
            (st.blocks.filter (fun b => (some b.height : Option Nat) == t.block)).head?,
            ((sent_note_counts st.received_notes st.sent_notes).filter
              (fun sc => sc.account_id == a && sc.id_tx == t.id_tx)).head?⟩ : JoinedRow)] := by
    intro n hn
    have hn2 := (List.mem_filter.mp hn).2
    simp at hn2
    rw [noteJoin_eq_singleton st hblk t n, hn2.1, hn2.2]
  rw [flatMap_congr_mem hnote, flatMap_map_singleton]

/-- The qualifying sent notes of one `(account, tx)` group are the sent
notes kept by the combined claim-side filter. -/
theorem qualifying_group_filter (st : Store) (a τ : Nat) :
    (qualifyingSent st.received_notes st.sent_notes).filter
        (fun s => s.from_account == a && s.tx == τ)
      = st.sent_notes.filter (fun s =>
          !(st.received_notes.any (fun r =>
              r.is_change && r.tx == s.tx && r.output_index == s.output_index))
            && (s.from_account == a && s.tx == τ)) := by
  rw [qualifyingSent, List.filter_filter]
  exact List.filter_congr (fun s _ => Bool.and_comm _ _)

/-- Looking up the `sent_note_counts` row of a key and coalescing yields
the claim-side distinct-note and memo counts. -/
theorem sent_counts_lookup (st : Store) (a τ : Nat) :
    coalesceSent (((sent_note_counts st.received_notes st.sent_notes).filter
        (fun sc => sc.account_id == a && sc.id_tx == τ)).head?) = spec_sentNoteCount st a τ
    ∧ coalesceMemo (((sent_note_counts st.received_notes st.sent_notes).filter
        (fun sc => sc.account_id == a && sc.id_tx == τ)).head?) = spec_sentMemoCount st a τ := by
  by_cases hk : (a, τ) ∈ ((qualifyingSent st.received_notes st.sent_notes).map
      (fun s => (s.from_account, s.tx))).dedup
  · have hmem : (sent_note_counts st.received_notes st.sent_notes).filter
        (fun sc => sc.account_id == a && sc.id_tx == τ)
        = [{ account_id := a
             id_tx := τ
             sent_notes :=
               ((((qualifyingSent st.received_notes st.sent_notes).filter
                   (fun s => s.from_account == a && s.tx == τ)).map
                     (fun s => s.id_note)).dedup.length : Nat)
             memo_count :=
               (((qualifyingSent st.received_notes st.sent_notes).filter
                   (fun s => s.from_account == a && s.tx == τ)).map
                     (fun s => if s.memo.isSome then (1 : Int) else 0)).sum }] := by
      apply filter_eq_singleton_of_key (fun sc => (sc.account_id, sc.id_tx))
        (sent_note_counts_key_nodup _ _)
      · rw [sent_note_counts]
        exact List.mem_map.mpr ⟨(a, τ), hk, rfl⟩
      · intro y hy
        simp [Prod.ext_iff]
    rw [hmem]
    rw [spec_sentNoteCount, spec_sentMemoCount, ← qualifying_group_filter]
    exact ⟨rfl, rfl⟩
  · have hmem : (sent_note_counts st.received_notes st.sent_notes).filter
        (fun sc => sc.account_id == a && sc.id_tx == τ) = [] := by
      apply List.filter_eq_nil_iff.mpr
      intro sc hsc hpsc
      simp only [Bool.and_eq_true, beq_iff_eq] at hpsc
      apply hk
      have := mem_sent_note_counts_key hsc
      rwa [hpsc.1, hpsc.2] at this
    have hnil : st.sent_notes.filter (fun s =>
        !(st.received_notes.any (fun r =>
            r.is_change && r.tx == s.tx && r.output_index == s.output_index))
          && (s.from_account == a && s.tx == τ)) = [] := by
      rw [← qualifying_group_filter]
      apply List.filter_eq_nil_iff.mpr
      intro s hs hps
      simp only [Bool.and_eq_true, beq_iff_eq] at hps
      apply hk
      apply List.mem_dedup.mpr
      exact List.mem_map.mpr ⟨s, hs, by rw [hps.1, hps.2]⟩
    rw [hmem, spec_sentNoteCount, spec_sentMemoCount, hnil]
    exact ⟨rfl, rfl⟩

/-- Every `v_transactions` row is determined by its group: there is a
transaction row with its id, the group of `notes` rows is nonempty, and
each reported column is the corresponding aggregate of that group. -/
theorem v_transactions_row_fields (st : Store)
    (htx : (st.transactions.map (fun t1 => t1.id_tx)).Nodup)
    (hblk : (st.blocks.map (fun b => b.height)).Nodup)
    {row : VTxRow} (hrow : row ∈ v_transactions st) :
    ∃ t ∈ st.transactions, t.id_tx = row.id_tx
      ∧ (notesCTE st.received_notes).filter
          (fun n => n.account_id == row.account_id && n.id_tx == row.id_tx) ≠ []
      ∧ row.net_transfer = (((notesCTE st.received_notes).filter
          (fun n => n.account_id == row.account_id && n.id_tx == row.id_tx)).map
            (fun n => n.value)).sum
      ∧ row.received_note_count = (((notesCTE st.received_notes).filter
          (fun n => n.account_id == row.account_id && n.id_tx == row.id_tx)).map
            (fun n => n.received_count)).sum
      ∧ row.memo_count = (((notesCTE st.received_notes).filter
          (fun n => n.account_id == row.account_id && n.id_tx == row.id_tx)).map
            (fun n => n.memo_present)).sum
          + coalesceMemo (((sent_note_counts st.received_notes st.sent_notes).filter
              (fun sc => sc.account_id == row.account_id && sc.id_tx == row.id_tx)).head?)
      ∧ row.sent_note_count = coalesceSent
          (((sent_note_counts st.received_notes st.sent_notes).filter
              (fun sc => sc.account_id == row.account_id && sc.id_tx == row.id_tx)).head?)
      ∧ row.has_change = decide (0 < (((notesCTE st.received_notes).filter
          (fun n => n.account_id == row.account_id && n.id_tx == row.id_tx)).map
            (fun n => n.is_change)).sum)
      ∧ row.expired_unmined = sqlAnd
          (some ((st.blocks.filter
            (fun b => (some b.height : Option Nat) == t.block)).head?).isNone)
          (sqlLe t.expiry_height (blocks_max_height st.blocks)) := by
  rw [v_transactions] at hrow
  obtain ⟨k, hk, hFk⟩ := List.mem_filterMap.mp hrow
  rcases hg : (joinedRows st).filter
      (fun j => j.n.account_id == k.1 && j.t.id_tx == k.2) with _ | ⟨j0, g⟩
  · rw [hg] at hFk
    cases hFk
  · rw [hg] at hFk
    have hrow2 : row = mkVTxRow k j0 (j0 :: g) := (Option.some.inj hFk).symm
    obtain ⟨j1, hj1, hj1k⟩ := List.mem_map.mp (List.mem_dedup.mp hk)
    have hjt := (mem_joinedRows.mp hj1).1
    have hidk : j1.t.id_tx = k.2 := congrArg Prod.snd hj1k
    have ha : row.account_id = k.1 := by rw [hrow2]; rfl
    have hid : row.id_tx = k.2 := by rw [hrow2]; rfl
    have hgrp := group_filter_eq st k.1 htx hblk hjt
    rw [hidk] at hgrp
    rw [hg] at hgrp
    have hnfne : (notesCTE st.received_notes).filter
        (fun n => n.account_id == k.1 && n.id_tx == k.2) ≠ [] := by
      intro h
      rw [h] at hgrp
      exact absurd hgrp (by simp)
    have hj0mem : j0 ∈ ((notesCTE st.received_notes).filter
        (fun n => n.account_id == k.1 && n.id_tx == k.2)).map (fun n =>
          (⟨j1.t, n, blocks_max_height st.blocks,
            (st.blocks.filter (fun b => (some b.height : Option Nat) == j1.t.block)).head?,
            ((sent_note_counts st.received_notes st.sent_notes).filter
              (fun sc => sc.account_id == k.1 && sc.id_tx == k.2)).head?⟩ : JoinedRow)) :=
      hgrp ▸ List.mem_cons_self j0 g
    obtain ⟨n0, _, hj0⟩ := List.mem_map.mp hj0mem
    refine ⟨j1.t, hjt, by rw [hid]; exact hidk, ?_, ?_, ?_, ?_, ?_, ?_, ?_⟩
    · rw [ha, hid]
      exact hnfne
    · have hnet : row.net_transfer = ((j0 :: g).map (fun j => j.n.value)).sum := by
        rw [hrow2]; rfl
      rw [ha, hid, hnet, hgrp, List.map_map]
      rfl
    · have hrc : row.received_note_count
          = ((j0 :: g).map (fun j => j.n.received_count)).sum := by
        rw [hrow2]; rfl
      rw [ha, hid, hrc, hgrp, List.map_map]
      rfl
    · have hmc : row.memo_count = ((j0 :: g).map (fun j => j.n.memo_present)).sum
          + maxAgg ((j0 :: g).map (fun j => coalesceMemo j.sc)) := by
        rw [hrow2]; rfl
      rw [ha, hid, hmc, hgrp, List.map_map, List.map_map]
      have hconst : maxAgg (((notesCTE st.received_notes).filter
          (fun n => n.account_id == k.1 && n.id_tx == k.2)).map
            ((fun j : JoinedRow => coalesceMemo j.sc) ∘ (fun n =>
              (⟨j1.t, n, blocks_max_height st.blocks,
                (st.blocks.filter (fun b => (some b.height : Option Nat) == j1.t.block)).head?,
                ((sent_note_counts st.received_notes st.sent_notes).filter
                  (fun sc => sc.account_id == k.1 && sc.id_tx == k.2)).head?⟩ : JoinedRow))))
          = coalesceMemo (((sent_note_counts st.received_notes st.sent_notes).filter
              (fun sc => sc.account_id == k.1 && sc.id_tx == k.2)).head?) := by
        apply maxAgg_const
        · intro h
          exact hnfne (List.map_eq_nil_iff.mp h)
        · intro x hx
          obtain ⟨n1, _, hn1⟩ := List.mem_map.mp hx
          exact hn1.symm
      rw [hconst]
      rfl
    · have hsc : row.sent_note_count
          = maxAgg ((j0 :: g).map (fun j => coalesceSent j.sc)) := by
        rw [hrow2]; rfl
      rw [ha, hid, hsc, hgrp, List.map_map]
      apply maxAgg_const
      · intro h
        exact hnfne (List.map_eq_nil_iff.mp h)
      · intro x hx
        obtain ⟨n1, _, hn1⟩ := List.mem_map.mp hx
        exact hn1.symm
    · have hhc : row.has_change = decide
          (0 < ((j0 :: g).map (fun j => j.n.is_change)).sum) := by
        rw [hrow2]; rfl
      rw [ha, hid, hhc, hgrp, List.map_map]
      rfl
    · have hexp : row.expired_unmined
          = sqlAnd (some j0.b.isNone) (sqlLe j0.t.expiry_height j0.maxh) := by
        rw [hrow2]; rfl
      rw [hexp, ← hj0]

/-- The group sum of `received_count` is the number of distinct receive
projections of the non-change received notes of the key. -/
theorem notes_received_sum (st : Store) (a τ : Nat) :
    (((notesCTE st.received_notes).filter (fun n => n.account_id == a && n.id_tx == τ)).map
        (fun n => n.received_count)).sum
      = spec_distinctNonChangeReceiveRows st a τ := by
  rw [notesCTE, filter_dedup_comm]
  have h01 : ∀ x ∈ ((st.received_notes.map recRow
      ++ st.received_notes.filterMap (fun r => r.spent.map (spendRowOf r))).filter
        (fun n => n.account_id == a && n.id_tx == τ)).dedup,
      (fun n : NotesRow => n.received_count) x = 0 ∨ (fun n : NotesRow => n.received_count) x = 1 :=
    fun x hx =>
      (notesRaw_counters (List.mem_of_mem_filter (List.mem_dedup.mp hx))).1
  rw [sum_eq_countP_of_zero_one (fun n : NotesRow => n.received_count) _ h01]
  rw [List.countP_eq_length_filter, filter_dedup_comm, List.filter_filter, List.filter_append]
  have hB : (st.received_notes.filterMap (fun r => r.spent.map (spendRowOf r))).filter
      (fun n => (n.received_count == 1) && (n.account_id == a && n.id_tx == τ)) = [] := by
    apply List.filter_eq_nil_iff.mpr
    intro n hn hpn
    obtain ⟨r, hr, hsp⟩ := List.mem_filterMap.mp hn
    rcases hspent : r.spent with _ | sp
    · rw [hspent] at hsp
      cases hsp
    · rw [hspent] at hsp
      simp only [Option.map_some'] at hsp
      cases hsp
      simp [spendRowOf] at hpn
  rw [hB, List.append_nil, List.filter_map]
  have hcong : st.received_notes.filter
      ((fun n => (n.received_count == 1) && (n.account_id == a && n.id_tx == τ)) ∘ recRow)
      = st.received_notes.filter (fun r => (r.account == a && r.tx == τ) && !r.is_change) := by
    apply List.filter_congr
    intro r hr
    by_cases hc : r.is_change <;> simp [recRow, Function.comp, hc]
  rw [hcong]
  rfl

/-- The group sum of `memo_present` is the number of distinct receive
projections of the memo-carrying received notes of the key. -/
theorem notes_memo_sum (st : Store) (a τ : Nat) :
    (((notesCTE st.received_notes).filter (fun n => n.account_id == a && n.id_tx == τ)).map
        (fun n => n.memo_present)).sum
      = spec_distinctMemoReceiveRows st a τ := by
  rw [notesCTE, filter_dedup_comm]
  have h01 : ∀ x ∈ ((st.received_notes.map recRow
      ++ st.received_notes.filterMap (fun r => r.spent.map (spendRowOf r))).filter
        (fun n => n.account_id == a && n.id_tx == τ)).dedup,
      (fun n : NotesRow => n.memo_present) x = 0 ∨ (fun n : NotesRow => n.memo_present) x = 1 :=
    fun x hx =>
      (notesRaw_counters (List.mem_of_mem_filter (List.mem_dedup.mp hx))).2
  rw [sum_eq_countP_of_zero_one (fun n : NotesRow => n.memo_present) _ h01]
  rw [List.countP_eq_length_filter, filter_dedup_comm, List.filter_filter, List.filter_append]
  have hB : (st.received_notes.filterMap (fun r => r.spent.map (spendRowOf r))).filter
      (fun n => (n.memo_present == 1) && (n.account_id == a && n.id_tx == τ)) = [] := by
    apply List.filter_eq_nil_iff.mpr
    intro n hn hpn
    obtain ⟨r, hr, hsp⟩ := List.mem_filterMap.mp hn
    rcases hspent : r.spent with _ | sp
    · rw [hspent] at hsp
      cases hsp
    · rw [hspent] at hsp
      simp only [Option.map_some'] at hsp
      cases hsp
      simp [spendRowOf] at hpn
  rw [hB, List.append_nil, List.filter_map]
  have hcong : st.received_notes.filter
      ((fun n => (n.memo_present == 1) && (n.account_id == a && n.id_tx == τ)) ∘ recRow)
      = st.received_notes.filter (fun r => (r.account == a && r.tx == τ) && r.memo.isSome) := by
    apply List.filter_congr
    intro r hr
    by_cases hm : r.memo.isSome <;> simp [recRow, Function.comp, hm]
  rw [hcong]
  rfl

/-- C4: in every `v_transactions` row (over a store with duplicate-free
transaction ids and block heights), `sent_note_count` is the number of
distinct sent notes of the account in the transaction excluding those on a
change output, and `received_note_count` counts only non-change received
notes (change outputs contribute to neither). -/
theorem c4_counts (st : Store)
    (htx : (st.transactions.map (fun t1 => t1.id_tx)).Nodup)
    (hblk : (st.blocks.map (fun b => b.height)).Nodup) :
    ∀ row ∈ v_transactions st,
      row.sent_note_count = spec_sentNoteCount st row.account_id row.id_tx
      ∧ row.received_note_count
          = spec_distinctNonChangeReceiveRows st row.account_id row.id_tx := by
  intro row hrow
  obtain ⟨t, ht, hid, hne, hnet, hrc, hmc, hsc, hhc, hexp⟩ :=
    v_transactions_row_fields st htx hblk hrow
  constructor
  · rw [hsc]
    exact (sent_counts_lookup st row.account_id row.id_tx).1
  · rw [hrc]
    exact notes_received_sum st row.account_id row.id_tx

/-- C4 witness: the migrated fixture satisfies both uniqueness hypotheses
and therefore the count characterization of every row. -/
theorem c4_counts_witness :
    ((fixtureMigrated.transactions.map (fun t1 => t1.id_tx)).Nodup)
    ∧ ((fixtureMigrated.blocks.map (fun b => b.height)).Nodup)
    ∧ ∀ row ∈ v_transactions fixtureMigrated,
        row.sent_note_count = spec_sentNoteCount fixtureMigrated row.account_id row.id_tx
        ∧ row.received_note_count
            = spec_distinctNonChangeReceiveRows fixtureMigrated row.account_id row.id_tx :=
  ⟨by decide, by decide, c4_counts fixtureMigrated (by decide) (by decide)⟩

/-- C5 (amended): in every `v_transactions` row (over a store with
duplicate-free transaction ids and block heights), `memo_count` is the
number of distinct receive projections of the memo-carrying received notes
of the account in the transaction — change notes included — plus the
number of non-null memos across its qualifying sent notes. -/
theorem c5_memo_amended (st : Store)
    (htx : (st.transactions.map (fun t1 => t1.id_tx)).Nodup)
    (hblk : (st.blocks.map (fun b => b.height)).Nodup) :
    ∀ row ∈ v_transactions st,
      row.memo_count = spec_distinctMemoReceiveRows st row.account_id row.id_tx
        + spec_sentMemoCount st row.account_id row.id_tx := by
  intro row hrow
  obtain ⟨t, ht, hid, hne, hnet, hrc, hmc, hsc, hhc, hexp⟩ :=
    v_transactions_row_fields st htx hblk hrow
  rw [hmc, notes_memo_sum st row.account_id row.id_tx]
  rw [(sent_counts_lookup st row.account_id row.id_tx).2]

/-- C5 witness: the amended memo-count characterization holds on the
migrated fixture. -/
theorem c5_memo_amended_witness :
    ((fixtureMigrated.transactions.map (fun t1 => t1.id_tx)).Nodup)
    ∧ ((fixtureMigrated.blocks.map (fun b => b.height)).Nodup)
    ∧ ∀ row ∈ v_transactions fixtureMigrated,
        row.memo_count = spec_distinctMemoReceiveRows fixtureMigrated row.account_id row.id_tx
          + spec_sentMemoCount fixtureMigrated row.account_id row.id_tx :=
  ⟨by decide, by decide, c5_memo_amended fixtureMigrated (by decide) (by decide)⟩

/-- C6 (amended): in every `v_transactions` row, `expired_unmined` is false
whenever some block row matches the transaction's block reference, and
otherwise equals the three-valued comparison of the expiry height with the
maximum block height — NULL (not false) when the blocks table is empty or
the expiry height is NULL. -/
theorem c6_expired_amended (st : Store)
    (htx : (st.transactions.map (fun t1 => t1.id_tx)).Nodup)
    (hblk : (st.blocks.map (fun b => b.height)).Nodup) :
    ∀ row ∈ v_transactions st, ∀ t ∈ st.transactions, t.id_tx = row.id_tx →
      ((st.blocks.any (fun b => (some b.height : Option Nat) == t.block)) = true →
        row.expired_unmined = some false)
      ∧ ((st.blocks.any (fun b => (some b.height : Option Nat) == t.block)) = false →
        row.expired_unmined = sqlLe t.expiry_height (blocks_max_height st.blocks)) := by
  intro row hrow t ht hid2
  obtain ⟨t1, ht1, hid1, hne, hnet, hrc, hmc, hsc, hhc, hexp⟩ :=
    v_transactions_row_fields st htx hblk hrow
  have ht1t : t1 = t := List.inj_on_of_nodup_map htx ht1 ht (hid1.trans hid2.symm)
  subst ht1t
  constructor
  · intro hany
    rw [hexp]
    obtain ⟨b, hb, hpb⟩ := List.any_eq_true.mp hany
    have hbf : b ∈ st.blocks.filter (fun b => (some b.height : Option Nat) == t1.block) :=
      List.mem_filter.mpr ⟨hb, hpb⟩
    rcases hh : (st.blocks.filter (fun b => (some b.height : Option Nat) == t1.block)).head?
        with _ | b0
    · rw [List.head?_eq_none_iff] at hh
      rw [hh] at hbf
      cases hbf
    · rw [hh]
      cases hle : sqlLe t1.expiry_height (blocks_max_height st.blocks) with
      | none => rfl
      | some bv => cases bv <;> rfl
  · intro hany
    rw [hexp]
    have hnil : st.blocks.filter (fun b => (some b.height : Option Nat) == t1.block) = [] := by
      apply List.filter_eq_nil_iff.mpr
      intro b hb hpb
      rw [List.any_eq_false] at hany
      exact hany b hb hpb
    rw [hnil]
    cases hle : sqlLe t1.expiry_height (blocks_max_height st.blocks) with
    | none => rfl
    | some bv => cases bv <;> rfl

/-- C6 witness: on the migrated fixture, transaction 0 is mined, so the
amended characterization reports false for its rows. -/
theorem c6_expired_amended_witness :
    ((fixtureMigrated.transactions.map (fun t1 => t1.id_tx)).Nodup)
    ∧ ((fixtureMigrated.blocks.map (fun b => b.height)).Nodup)
    ∧ (∀ row ∈ v_transactions fixtureMigrated, ∀ t ∈ fixtureMigrated.transactions,
        t.id_tx = row.id_tx →
        ((fixtureMigrated.blocks.any
            (fun b => (some b.height : Option Nat) == t.block)) = true →
          row.expired_unmined = some false)
        ∧ ((fixtureMigrated.blocks.any
            (fun b => (some b.height : Option Nat) == t.block)) = false →
          row.expired_unmined
            = sqlLe t.expiry_height (blocks_max_height fixtureMigrated.blocks))) :=
  ⟨by decide, by decide, c6_expired_amended fixtureMigrated (by decide) (by decide)⟩

/-- A `notes` row of key `(a, τ)` together with a transaction row of id `τ`
produces a `v_transactions` row of that key. -/
theorem v_transactions_mem_of_note (st : Store) {a τ : Nat} {t : TransactionRow}
    (ht : t ∈ st.transactions) (htτ : t.id_tx = τ) {n : NotesRow}
    (hn : n ∈ notesCTE st.received_notes) (hna : n.account_id = a) (hnτ : n.id_tx = τ) :
    ∃ row ∈ v_transactions st, row.account_id = a ∧ row.id_tx = τ := by
  obtain ⟨b0, hb0⟩ := vJoinLeft_exists_mem
    (st.blocks.filter (fun b => (some b.height : Option Nat) == t.block))
  obtain ⟨sc0, hsc0⟩ := vJoinLeft_exists_mem
    ((sent_note_counts st.received_notes st.sent_notes).filter
      (fun sc => sc.account_id == n.account_id && sc.id_tx == n.id_tx))
  have hj : (⟨t, n, blocks_max_height st.blocks, b0, sc0⟩ : JoinedRow) ∈ joinedRows st :=
    mem_joinedRows.mpr ⟨ht, hn, by rw [hnτ, htτ], rfl, hb0, hsc0⟩
  have hjf : (⟨t, n, blocks_max_height st.blocks, b0, sc0⟩ : JoinedRow)
      ∈ (joinedRows st).filter (fun j => j.n.account_id == a && j.t.id_tx == τ) :=
    List.mem_filter.mpr ⟨hj, by simp [hna, htτ]⟩
  have hkmem : (a, τ) ∈ ((joinedRows st).map (fun j => (j.n.account_id, j.t.id_tx))).dedup := by
    apply List.mem_dedup.mpr
    apply List.mem_map.mpr
    refine ⟨⟨t, n, blocks_max_height st.blocks, b0, sc0⟩, hj, ?_⟩
    show (n.account_id, t.id_tx) = (a, τ)
    rw [hna, htτ]
  rcases hg : (joinedRows st).filter (fun j => j.n.account_id == a && j.t.id_tx == τ)
      with _ | ⟨j0, g⟩
  · rw [hg] at hjf
    cases hjf
  · refine ⟨mkVTxRow (a, τ) j0 (j0 :: g), ?_, rfl, rfl⟩
    rw [v_transactions]
    apply List.mem_filterMap.mpr
    refine ⟨(a, τ), hkmem, ?_⟩
    show (match (joinedRows st).filter (fun j => j.n.account_id == a && j.t.id_tx == τ) with
      | [] => none
      | j0 :: g => some (mkVTxRow (a, τ) j0 (j0 :: g))) = some (mkVTxRow (a, τ) j0 (j0 :: g))
    rw [hg]

/-- C8 (amended): a `v_transactions` row for `(account, transaction)`
exists iff the transaction row exists and the account has a received note
in the transaction or a received note spent by it; a pair whose only
involvement is a sent note yields no row. -/
theorem c8_row_existence (st : Store) (a τ : Nat) :
    (∃ row ∈ v_transactions st, row.account_id = a ∧ row.id_tx = τ)
    ↔ ((∃ t ∈ st.transactions, t.id_tx = τ)
        ∧ ∃ r ∈ st.received_notes, r.account = a ∧ (r.tx = τ ∨ r.spent = some τ)) := by
  constructor
  · rintro ⟨row, hrow, ha, hτ⟩
    rw [v_transactions] at hrow
    obtain ⟨k, hk, hFk⟩ := List.mem_filterMap.mp hrow
    rcases hg : (joinedRows st).filter (fun j => j.n.account_id == k.1 && j.t.id_tx == k.2)
        with _ | ⟨j0, g⟩
    · rw [hg] at hFk
      cases hFk
    · rw [hg] at hFk
      have hrow2 : row = mkVTxRow k j0 (j0 :: g) := (Option.some.inj hFk).symm
      have hk1 : k.1 = a := by rw [← ha, hrow2]; rfl
      have hk2 : k.2 = τ := by rw [← hτ, hrow2]; rfl
      have hj0 : j0 ∈ (joinedRows st).filter
          (fun j => j.n.account_id == k.1 && j.t.id_tx == k.2) :=
        hg ▸ List.mem_cons_self j0 g
      have hj0m := List.mem_filter.mp hj0
      have hpk := hj0m.2
      simp only [Bool.and_eq_true, beq_iff_eq] at hpk
      obtain ⟨ht, hn, hnid, _, _, _⟩ := mem_joinedRows.mp hj0m.1
      refine ⟨⟨j0.t, ht, by rw [← hk2]; exact hpk.2⟩, ?_⟩
      rcases mem_notesCTE.mp hn with ⟨r, hr, hrn⟩ | ⟨r, hr, sp, hsp, hrn⟩
      · refine ⟨r, hr, ?_, Or.inl ?_⟩
        · have h1 : r.account = j0.n.account_id := by rw [hrn]; rfl
          rw [h1, hpk.1, hk1]
        · have h1 : r.tx = j0.n.id_tx := by rw [hrn]; rfl
          rw [h1, hnid, hpk.2, hk2]
      · refine ⟨r, hr, ?_, Or.inr ?_⟩
        · have h1 : r.account = j0.n.account_id := by rw [hrn]; rfl
          rw [h1, hpk.1, hk1]
        · have h1 : sp = j0.n.id_tx := by rw [hrn]; rfl
          rw [hsp, h1, hnid, hpk.2, hk2]
  · rintro ⟨⟨t, ht, htτ⟩, r, hr, hra, hrτ | hrsp⟩
    · exact v_transactions_mem_of_note st ht htτ
        (mem_notesCTE.mpr (Or.inl ⟨r, hr, rfl⟩))
        (by rw [recRow]; exact hra) (by rw [recRow]; exact hrτ)
    · exact v_transactions_mem_of_note st ht htτ
        (mem_notesCTE.mpr (Or.inr ⟨r, hr, τ, hrsp, rfl⟩))
        (by rw [spendRowOf]; exact hra) (by rw [spendRowOf])

/-- A successful `DROP VIEW` requires the view and erases it. -/
theorem dropView_ok {name : String} {vs vs2 : List String}
    (h : dropView name vs = Except.ok vs2) : name ∈ vs ∧ vs2 = vs.erase name := by
  rw [dropView] at h
  split at h
  · exact ⟨by assumption, (Except.ok.inj h).symm⟩
  · cases h

/-- A successful `CREATE VIEW` requires the name to be fresh and appends
it. -/
theorem createView_ok {name : String} {vs vs2 : List String}
    (h : createView name vs = Except.ok vs2) : name ∉ vs ∧ vs2 = vs ++ [name] := by
  rw [createView] at h
  split at h
  · cases h
  · exact ⟨by assumption, (Except.ok.inj h).symm⟩

/-- C10: a successful run of the forward transformation leaves the base
tables `transactions`, `blocks`, `accounts` and `received_notes` unchanged,
extends `sent_notes` by exactly the backfill rows, removes the views
`v_tx_received` and `v_tx_sent`, and (re)defines `v_tx_events` and
`v_transactions`. -/
theorem c10_frame (st st2 : Store) (hnd : st.views.Nodup)
    (h : Migration.up st = Except.ok st2) :
    st2.transactions = st.transactions
    ∧ st2.blocks = st.blocks
    ∧ st2.accounts = st.accounts
    ∧ st2.received_notes = st.received_notes
    ∧ st2.sent_notes = st.sent_notes ++ backfillRows st
    ∧ "v_tx_received" ∉ st2.views
    ∧ "v_tx_sent" ∉ st2.views
    ∧ "v_tx_events" ∈ st2.views
    ∧ "v_transactions" ∈ st2.views := by
  rw [Migration.up] at h
  split at h
  · cases h
  · rename_i vs1 hd1
    split at h
    · cases h
    · rename_i vs2 hd2
      split at h
      · cases h
      · rename_i vs3 hd3
        split at h
        · cases h
        · rename_i vs4 hd4
          split at h
          · cases h
          · rename_i vs5 hd5
            have hst2 : st2 = { applyBackfill st with views := vs5 } := (Except.ok.inj h).symm
            obtain ⟨hm1, he1⟩ := dropView_ok hd1
            obtain ⟨hm3, he3⟩ := createView_ok hd3
            obtain ⟨hm2, he2⟩ := dropView_ok hd2
            obtain ⟨hm4, he4⟩ := dropView_ok hd4
            obtain ⟨hm5, he5⟩ := createView_ok hd5
            subst hst2
            subst he1
            subst he2
            subst he3
            subst he4
            subst he5
            have hviews : (applyBackfill st).views = st.views := rfl
            rw [hviews]
            have hR2 : "v_tx_received" ∉ (st.views.erase "v_tx_received").erase "v_tx_sent" :=
              fun hmem => hnd.not_mem_erase (List.mem_of_mem_erase hmem)
            have hS2 : "v_tx_sent" ∉ (st.views.erase "v_tx_received").erase "v_tx_sent" :=
              (hnd.erase _).not_mem_erase
            refine ⟨rfl, rfl, rfl, rfl, rfl, ?_, ?_, ?_, ?_⟩
            · intro hmem
              rcases List.mem_append.mp hmem with hmem | hmem
              · have hmem2 := List.mem_of_mem_erase hmem
                rcases List.mem_append.mp hmem2 with hmem3 | hmem3
                · exact hR2 hmem3
                · exact absurd (List.mem_singleton.mp hmem3) (by decide)
              · exact absurd (List.mem_singleton.mp hmem) (by decide)
            · intro hmem
              rcases List.mem_append.mp hmem with hmem | hmem
              · have hmem2 := List.mem_of_mem_erase hmem
                rcases List.mem_append.mp hmem2 with hmem3 | hmem3
                · exact hS2 hmem3
                · exact absurd (List.mem_singleton.mp hmem3) (by decide)
              · exact absurd (List.mem_singleton.mp hmem) (by decide)
            · apply List.mem_append_left
              rw [List.mem_erase_of_ne (by decide)]
              exact List.mem_append_right _ (by simp)
            · exact List.mem_append_right _ (by simp)

/-- C10 witness: running the migration on the empty store with the three
pre-migration views succeeds and exhibits the frame conditions. -/
theorem c10_frame_witness :
    c10store.views.Nodup
    ∧ ((⟨[], [], [], [], [], ["v_tx_events", "v_transactions"]⟩ : Store).transactions
          = c10store.transactions
       ∧ (⟨[], [], [], [], [], ["v_tx_events", "v_transactions"]⟩ : Store).blocks
          = c10store.blocks
       ∧ (⟨[], [], [], [], [], ["v_tx_events", "v_transactions"]⟩ : Store).accounts
          = c10store.accounts
       ∧ (⟨[], [], [], [], [], ["v_tx_events", "v_transactions"]⟩ : Store).received_notes
          = c10store.received_notes
       ∧ (⟨[], [], [], [], [], ["v_tx_events", "v_transactions"]⟩ : Store).sent_notes
          = c10store.sent_notes ++ backfillRows c10store
       ∧ "v_tx_received" ∉ (⟨[], [], [], [], [],
            ["v_tx_events", "v_transactions"]⟩ : Store).views
       ∧ "v_tx_sent" ∉ (⟨[], [], [], [], [],
            ["v_tx_events", "v_transactions"]⟩ : Store).views
       ∧ "v_tx_events" ∈ (⟨[], [], [], [], [],
            ["v_tx_events", "v_transactions"]⟩ : Store).views
       ∧ "v_transactions" ∈ (⟨[], [], [], [], [],
            ["v_tx_events", "v_transactions"]⟩ : Store).views) :=
  ⟨by decide,
   c10_frame c10store ⟨[], [], [], [], [], ["v_tx_events", "v_transactions"]⟩ (by decide) rfl⟩
